import Mathlib

/-!
Shallow embedding of the memory-engine service of the
ai-multi-channel-chatbot project, together with proofs about its
memory-management and context-optimization logic.

Source files embedded:
- src/services/memory-engine/services/memory_manager.py
- src/services/memory-engine/services/vector_store.py
- src/services/memory-engine/services/embedding_service.py
- src/memory-engine/app.py

External collaborators (Redis, ChromaDB, the OpenAI embedding and chat
providers, JSON serialization) are modelled as explicit parameters:
a backend call becomes an `Except Err` value or a function producing one,
`json.loads` becomes a partial parsing function `String → Option _`, and
`json.dumps` becomes a serialization function.  Python dictionaries are
modelled as association lists with insertion-order update semantics,
Python floats as rationals (inputs) and reals (derived scores).
-/

abbrev Err := String

/-- Python truthiness of an optional string: `None` and `""` are falsy. -/
def truthyOpt : Option String → Bool
  | some s => s != ""
  | none => false

/-- Values that can appear in a `context` map: plain strings, a parsed
JSON-object summary, or the raw-text fallback summary
`{"summary": raw}` produced when JSON parsing fails. -/
inductive CtxVal where
  | str : String → CtxVal
  | summaryObj : List (String × String) → CtxVal
  | summaryRaw : String → CtxVal
deriving DecidableEq, Repr

/-- A Python dict with string keys, as an insertion-ordered association list. -/
abbrev Ctx := List (String × CtxVal)

/-- Python `d[k] = v`: replace the value in place if the key is present,
otherwise append the binding at the end (insertion order preserved). -/
def dictSet {α : Type} : List (String × α) → String → α → List (String × α)
  | [], k, v => [(k, v)]
  | p :: ps, k, v => if p.1 = k then (k, v) :: ps else p :: dictSet ps k v

/-- Python `d.update(other)`: fold `dictSet` over `other` in insertion order,
so later keys overwrite earlier ones. -/
def dictUpdate {α : Type} (d other : List (String × α)) : List (String × α) :=
  other.foldl (fun acc p => dictSet acc p.1 p.2) d

theorem lookup_dictSet {α : Type} (d : List (String × α)) (k k' : String) (v : α) :
    (dictSet d k v).lookup k' = if k' = k then some v else d.lookup k' := by
  induction d with
  | nil =>
      by_cases h : k' = k
      · simp [dictSet, List.lookup, h]
      · have h2 : (k' == k) = false := by simp [h]
        simp [dictSet, List.lookup, h2, h]
  | cons p ps ih =>
      by_cases hpk : p.1 = k
      · by_cases h : k' = k
        · simp [dictSet, hpk, List.lookup, h]
        · have h2 : (k' == k) = false := by simp [h]
          have h3 : (k' == p.1) = false := by simp [hpk, h]
          simp [dictSet, hpk, List.lookup, h2, h3, h]
      · by_cases hp : k' = p.1
        · have : ¬ k' = k := fun hc => hpk (hp ▸ hc ▸ rfl)
          simp [dictSet, hpk, List.lookup, hp, this]
        · have h3 : (k' == p.1) = false := by simp [hp]
          simp [dictSet, hpk, List.lookup, h3, ih]

theorem lookup_dictUpdate {α : Type} (c d : List (String × α)) (k : String) :
    (dictUpdate d c).lookup k = (c.reverse.lookup k).or (d.lookup k) := by
  induction c generalizing d with
  | nil => simp [dictUpdate]
  | cons p ps ih =>
      have step : dictUpdate d (p :: ps) = dictUpdate (dictSet d p.1 p.2) ps := rfl
      rw [step, ih]
      rw [lookup_dictSet]
      have hrev : (p :: ps).reverse = ps.reverse ++ [p] := by simp
      rw [hrev, List.lookup_append]
      by_cases h : k = p.1
      · simp [List.lookup, h, Option.or_assoc]
      · have h2 : (k == p.1) = false := by simp [h]
        simp [List.lookup, h2, h, Option.or_assoc]

/-- One conversation turn, as the dict handed to `store_memory`
(`conversation_turn`).  The `.get(..., default)` defaults of the source are
applied at construction, so all fields are total. -/
structure Turn where
  messageId : String
  message : String
  response : String
  timestamp : String
  channel : String
  metadata : List (String × String)
deriving DecidableEq, Repr

/-- The full memory aggregate optionally passed to
`MemoryManager.store_memory` and mutated by `_summarize_context`
(`memory["history"]`, `memory["context"]`). -/
structure MemoryAgg where
  history : List Turn
  context : Ctx
deriving DecidableEq, Repr

/-- The `memory_data` dict built by `MemoryManager.store_memory`
(memory_manager.py lines 30-44) and serialized into the vector store's
`full_data` metadata field. -/
structure StoredMemoryData where
  userId : String
  sessionId : String
  message : String
  response : String
  messageId : String
  timestamp : String
  channel : String
  metadata : List (String × String)
  context : Option Ctx
  history : Option (List Turn)
deriving DecidableEq, Repr

namespace MemoryManager

/-- Construction of `memory_data` in `MemoryManager.store_memory`:
the turn's fields plus, when a full aggregate is supplied, its
`context` and `history`. -/
def buildMemoryData (user_id session_id : String) (turn : Turn)
    (memory : Option MemoryAgg) : StoredMemoryData :=
  { userId := user_id
    sessionId := session_id
    message := turn.message
    response := turn.response
    messageId := turn.messageId
    timestamp := turn.timestamp
    channel := turn.channel
    metadata := turn.metadata
    context := memory.map MemoryAgg.context
    history := memory.map MemoryAgg.history }

/-- The conversation text sent to the summarization provider:
alternating `"User: …"` / `"Assistant: …"` lines joined by newlines. -/
def conversationText (history : List Turn) : String :=
  String.intercalate "\n"
    (history.flatMap fun turn => ["User: " ++ turn.message, "Assistant: " ++ turn.response])

/-- `MemoryManager._summarize_context` (memory_manager.py lines 124-185).
`provider` models the OpenAI chat-completion call on the formatted
conversation (its `Except` error is the Python exception path, caught by
the surrounding `try`), and `parse` models `json.loads` on the provider's
reply (`none` is `JSONDecodeError`, handled by the raw-text fallback). -/
def summarizeContext (provider : String → Except Err String)
    (parse : String → Option (List (String × String)))
    (memory : MemoryAgg) : MemoryAgg :=
  if memory.history.length < 5 then memory
  else
    match provider (conversationText memory.history) with
    | .error _ => memory
    | .ok summary_text =>
        let summary : CtxVal :=
          match parse summary_text with
          | some obj => CtxVal.summaryObj obj
          | none => CtxVal.summaryRaw summary_text
        { memory with
          context := dictSet memory.context "conversation_summary" summary
          history := memory.history.drop (memory.history.length - 10) }

/-- `MemoryManager.store_memory` (memory_manager.py lines 18-56).
`vs_store` models `VectorStore.store_memory` (an `Except` error is the
backend exception, re-raised by the manager).  The updated aggregate is
returned alongside the memory id, modelling the in-place mutation of the
`memory` dict performed by `_summarize_context`. -/
def store_memory (vs_store : StoredMemoryData → Except Err String)
    (provider : String → Except Err String)
    (parse : String → Option (List (String × String)))
    (user_id session_id : String) (turn : Turn)
    (memory : Option MemoryAgg) : Except Err (String × Option MemoryAgg) :=
  match vs_store (buildMemoryData user_id session_id turn memory) with
  | .error e => .error e
  | .ok memory_id =>
      match memory with
      | some m =>
          if 20 < m.history.length then
            .ok (memory_id, some (summarizeContext provider parse m))
          else
            .ok (memory_id, some m)
      | none => .ok (memory_id, none)

end MemoryManager

/-- A memory dict as deserialized from the vector store's `full_data`
metadata (`json.loads`).  Arbitrary JSON may omit keys, so every field is
optional; missing keys are `none` (the `.get` defaults are applied at the
use sites, as in the source). -/
structure MemoryData where
  userId : Option String
  sessionId : Option String
  message : Option String
  response : Option String
  messageId : Option String
  timestamp : Option String
  channel : Option String
  metadata : Option (List (String × String))
  context : Option Ctx
  similarity_score : Option ℚ
deriving DecidableEq, Repr

/-- One metadata record returned by the ChromaDB backend: only the
`full_data` field (the serialized memory dict) is read by the adapter. -/
structure ChromaMeta where
  full_data : Option String
deriving DecidableEq, Repr

/-- The result of a ChromaDB `query` call as consumed by
`VectorStore.search_memories`: the first row of `metadatas`, and the first
row of `distances` when that key is present and non-empty. -/
structure ChromaQueryRes where
  metadatas : List ChromaMeta
  distances : Option (List ℚ)
deriving DecidableEq, Repr

namespace VectorStore

/-- `VectorStore.store_memory` (vector_store.py lines 53-80): the ChromaDB
`add` call is modelled by its outcome `backendAdd`; on success the freshly
generated uuid is returned, on failure the exception is re-raised. -/
def store_memory (backendAdd : Except Err Unit) (memory_id : String) :
    Except Err String :=
  match backendAdd with
  | .ok _ => .ok memory_id
  | .error e => .error e

/-- `VectorStore.search_memories` (vector_store.py lines 82-113).
`backendResult` is the outcome of the ChromaDB `query` call; a backend
failure is caught, logged, and turned into the empty list.  `parse`
models `json.loads` on each `full_data` (a `JSONDecodeError` skips the
record).  Out-of-range distance indexing is modelled as leaving the
score absent. -/
def search_memories (backendResult : Except Err ChromaQueryRes)
    (parse : String → Option MemoryData) : List MemoryData :=
  match backendResult with
  | .error _ => []
  | .ok res =>
      (res.metadatas.enum).filterMap fun p =>
        match parse (p.2.full_data.getD "\x7b\x7d") with
        | none => none
        | some full_data =>
            some (match res.distances with
              | some ds => { full_data with similarity_score := ds.get? p.1 }
              | none => full_data)

/-- `VectorStore.get_all_user_memories` (vector_store.py lines 115-135).
A backend failure is caught and turned into the empty list; unparsable
records are skipped. -/
def get_all_user_memories (backendResult : Except Err (List ChromaMeta))
    (parse : String → Option MemoryData) : List MemoryData :=
  match backendResult with
  | .error _ => []
  | .ok metas => metas.filterMap fun meta => parse (meta.full_data.getD "\x7b\x7d")

end VectorStore

/-- The aggregate returned by `MemoryManager.get_memory`
(memory_manager.py lines 101-109). -/
structure SessionMemory where
  userId : String
  sessionId : String
  history : List Turn
  context : Ctx
  firstInteraction : Option String
  lastInteraction : Option String
deriving DecidableEq, Repr

namespace MemoryManager

/-- Session filter of `get_memory`: applied only when `session_id` is
truthy, keeps the memories whose `sessionId` equals it. -/
def sessionFilter (session_id : Option String) (memories : List MemoryData) :
    List MemoryData :=
  if truthyOpt session_id then
    memories.filter fun m => m.sessionId == session_id
  else memories

/-- `memories.sort(key=lambda x: x.get("timestamp", ""))`: Python's stable
ascending sort, modelled by insertion sort placing each element before the
first later element with a key not smaller than its own. -/
def sortByTimestamp (memories : List MemoryData) : List MemoryData :=
  memories.insertionSort fun a b => a.timestamp.getD "" ≤ b.timestamp.getD ""

/-- The history entry built from one stored memory, present exactly when
both the `message` and `response` keys are. -/
def turnOfMemory (m : MemoryData) : Option Turn :=
  if m.message.isSome && m.response.isSome then
    some
      { messageId := m.messageId.getD ""
        message := m.message.getD ""
        response := m.response.getD ""
        timestamp := m.timestamp.getD ""
        channel := m.channel.getD "unknown"
        metadata := m.metadata.getD [] }
  else none

/-- The `context.update(memory["context"])` loop of `get_memory`, folded
over the memories in order. -/
def foldContexts (memories : List MemoryData) : Ctx :=
  memories.foldl
    (fun acc m => match m.context with
      | some c => dictUpdate acc c
      | none => acc) []

/-- One step of the `first_interaction` tracking in `get_memory`:
`if not first_interaction or timestamp < first_interaction`. -/
def updFirst (fi : Option String) (t : String) : Option String :=
  match fi with
  | none => some t
  | some f => if f = "" ∨ t < f then some t else some f

/-- One step of the `last_interaction` tracking in `get_memory`:
`if not last_interaction or timestamp > last_interaction`. -/
def updLast (li : Option String) (t : String) : Option String :=
  match li with
  | none => some t
  | some f => if f = "" ∨ f < t then some t else some f

/-- The truthy timestamps of a memory list, in order: `memory.get("timestamp")`
when present and non-empty. -/
def truthyTimestamps (memories : List MemoryData) : List String :=
  memories.filterMap fun m =>
    match m.timestamp with
    | some t => if t = "" then none else some t
    | none => none

/-- The pure core of `MemoryManager.get_memory` (memory_manager.py lines
58-111): session filter, stable sort by timestamp, history extraction,
context folding, first/last interaction tracking. -/
def buildSessionMemory (user_id : String) (session_id : Option String)
    (memories : List MemoryData) : SessionMemory :=
  let ms := sortByTimestamp (sessionFilter session_id memories)
  { userId := user_id
    sessionId := session_id.getD ""
    history := ms.filterMap turnOfMemory
    context := foldContexts ms
    firstInteraction := (truthyTimestamps ms).foldl updFirst none
    lastInteraction := (truthyTimestamps ms).foldl updLast none }

/-- `MemoryManager.get_memory`: the adapter swallows backend failures
(returning `[]`), so the manager's own `try`/`raise` never fires and the
call always succeeds. -/
def get_memory (user_id : String) (session_id : Option String)
    (backendResult : Except Err (List ChromaMeta))
    (parse : String → Option MemoryData) : Except Err SessionMemory :=
  .ok (buildSessionMemory user_id session_id
        (VectorStore.get_all_user_memories backendResult parse))

/-- `MemoryManager.search_memories` (memory_manager.py lines 116-122):
delegates to the adapter; since the adapter swallows backend failures,
the manager always succeeds. -/
def search_memories (backendResult : Except Err ChromaQueryRes)
    (parse : String → Option MemoryData) : Except Err (List MemoryData) :=
  .ok (VectorStore.search_memories backendResult parse)

end MemoryManager

abbrev Vec := List ℚ

/-- The all-zero fallback embedding (`[0.0] * 1536`). -/
def zeroVec : Vec := List.replicate 1536 0

/-- One item of a batched OpenAI embeddings response: its `index` and its
`embedding`. -/
structure EmbItem where
  index : ℕ
  embedding : Vec
deriving DecidableEq, Repr

namespace EmbeddingService

/-- The `range(0, len(texts), batch_size)` slicing of
`EmbeddingService.get_embeddings`: successive chunks `texts[i:i+n]`. -/
def chunksOf (n : ℕ) (l : List String) : List (List String) :=
  if l = [] ∨ n = 0 then [] else l.take n :: chunksOf n (l.drop n)
termination_by l.length
decreasing_by
  simp only [List.length_drop]
  rcases Nat.eq_zero_or_pos n with h0 | hpos
  · exact absurd (Or.inr h0) (by assumption)
  · have hne : l ≠ [] := fun hc => (by assumption : ¬(l = [] ∨ n = 0)) (Or.inl hc)
    have : 0 < l.length := List.length_pos.mpr hne
    omega

/-- One loop iteration of `get_embeddings` (embedding_service.py lines
53-70): call the provider on the batch; on success, sort the response
items by their `index` (a stable ascending sort) and keep the embeddings;
on failure, substitute one 1536-dimension zero vector per batch element. -/
def processBatch (call : List String → Except Err (List EmbItem))
    (batch : List String) : List Vec :=
  match call batch with
  | .ok data =>
      (data.insertionSort fun a b => a.index ≤ b.index).map EmbItem.embedding
  | .error _ => List.replicate batch.length zeroVec

/-- `EmbeddingService.get_embeddings` (embedding_service.py lines 43-72):
empty input short-circuits to `[]`; otherwise the input is processed in
batches of 100 and the per-batch results are concatenated in order. -/
def get_embeddings (call : List String → Except Err (List EmbItem))
    (texts : List String) : List Vec :=
  if texts = [] then []
  else (chunksOf 100 texts).flatMap (processBatch call)

end EmbeddingService

namespace App

/-- `sum(a * b for a, b in zip(query_embedding, memory_embedding))`
(app.py line 498). -/
def dotProduct (a b : Vec) : ℚ :=
  ((a.zip b).map fun p => p.1 * p.2).sum

/-- `sum(x * x for x in v)`, the square of a magnitude (app.py lines
499-500). -/
def sumSquares (a : Vec) : ℚ :=
  (a.map fun x => x * x).sum

/-- `sum(x * x for x in v) ** 0.5`: the Euclidean magnitude of a vector. -/
noncomputable def magnitude (a : Vec) : ℝ :=
  Real.sqrt ((sumSquares a : ℚ) : ℝ)

/-- The inline cosine-similarity computation of `optimize_context`
(app.py lines 498-501): `dot / (m1 * m2) if m1 * m2 > 0 else 0`. -/
noncomputable def cosineSimilarity (a b : Vec) : ℝ :=
  if 0 < magnitude a * magnitude b then
    ((dotProduct a b : ℚ) : ℝ) / (magnitude a * magnitude b)
  else 0

/-- `sorted(zip(memory_metadata, relevance_scores), key=lambda x: x[1],
reverse=True)` (app.py lines 505-509): Python's stable descending sort,
modelled by insertion sort placing each element before the first later
element whose score is not larger. -/
noncomputable def sortByScoreDesc {γ : Type} (candidates : List (γ × ℝ)) :
    List (γ × ℝ) :=
  candidates.insertionSort fun a b => b.2 ≤ a.2

/-- The top-relevance selection of `optimize_context` (app.py lines
505-517): stable descending sort by score, keep the first 3, keep only
scores strictly above 0.7. -/
noncomputable def selectTop {γ : Type} (candidates : List (γ × ℝ)) :
    List (γ × ℝ) :=
  ((sortByScoreDesc candidates).take 3).filter fun p => decide ((0.7 : ℝ) < p.2)

/-- A memory record as consumed by `optimize_context`: only its `value`
payload is read (both for serialization into an embedding text and as the
returned `content`). -/
structure MemRec (μ : Type) where
  value : μ
deriving DecidableEq, Repr

/-- One entry of `relevant_memories`:
`{"content": memory["value"], "relevance": round(score, 2)}`. -/
structure RelMem (μ : Type) where
  content : μ
  relevance : ℝ

/-- The `optimized_context` payload returned by `optimize_context`. -/
structure OptimizedContext (α μ : Type) where
  conversation_history : List α
  relevant_memories : List (RelMem μ)
  session_context : Ctx

/-- Python's `round(x, 2)`: round to the nearest multiple of 1/100, ties
to the even neighbor (float `round` is half-to-even). -/
noncomputable def pyRound2 (x : ℝ) : ℝ :=
  (if Int.fract (x * 100) = 1 / 2 then
    (if Even ⌊x * 100⌋ then (⌊x * 100⌋ : ℝ) else (⌊x * 100⌋ : ℝ) + 1)
  else (round (x * 100) : ℤ)) / 100

/-- Step 1 of `optimize_context` when memories exist and the query is
non-empty (app.py lines 476-517): embed the query and each memory's
serialized value, score by cosine similarity, and keep the top
selection with rounded scores. -/
noncomputable def rankMemories {μ : Type} (serialize : μ → String)
    (embed : String → Vec) (query_embedding : Vec)
    (memories : List (MemRec μ)) : List (RelMem μ) :=
  let memory_texts := memories.map fun m => serialize m.value
  let memory_embeddings := memory_texts.map embed
  let relevance_scores := memory_embeddings.map (cosineSimilarity query_embedding)
  (selectTop (memories.zip relevance_scores)).map fun p =>
    { content := p.1.value, relevance := pyRound2 p.2 }

/-- The history truncation of `optimize_context` (app.py lines 528-535):
`history[:2] + history[-8:]` when more than 10 turns, unchanged otherwise. -/
def truncateHistory {α : Type} (conversation_history : List α) : List α :=
  if 10 < conversation_history.length then
    conversation_history.take 2 ++
      conversation_history.drop (conversation_history.length - 8)
  else conversation_history

/-- `optimize_context` (app.py lines 457-546).  `memResult` is the outcome
of `get_memories(user_id, type="long_term")` — its failure escapes to the
outer `except`, which re-raises as an HTTP 500 (modelled as `.error`).
`ctxResult` is the outcome of `get_session_context(session_id)` — its
failure is caught by the inner bare `except: pass`, leaving the empty
context.  `embed` models `generate_embedding`, which never raises (it
falls back to a zero vector).  Missing `userId`/`sessionId` and Python
falsy values (`None`, `""`) skip the respective steps. -/
noncomputable def optimize_context {α μ : Type} (conversation_history : List α)
    (user_query : String) (userId sessionId : Option String)
    (memResult : Except Err (List (MemRec μ)))
    (serialize : μ → String) (embed : String → Vec)
    (ctxResult : Except Err Ctx) : Except Err (OptimizedContext α μ) :=
  match (if truthyOpt userId then
          match memResult with
          | .error e => .error e
          | .ok memories =>
              .ok (if !memories.isEmpty && user_query != "" then
                    rankMemories serialize embed (embed user_query) memories
                  else [])
        else .ok [] : Except Err (List (RelMem μ))) with
  | .error e => .error e
  | .ok relevant_memories =>
      .ok
        { conversation_history := truncateHistory conversation_history
          relevant_memories := relevant_memories
          session_context :=
            if truthyOpt sessionId then
              match ctxResult with
              | .ok c => c
              | .error _ => []
            else [] }

end App

namespace App

/-- A `MemoryItem` request body (app.py lines 100-107): the payload `value`
is an opaque JSON object `μ`, `metadata` an optional string map. -/
structure MemoryItem (μ : Type) where
  userId : String
  type : String
  key : String
  value : μ
  metadata : Option (List (String × String))
  ttl : Option ℕ

/-- The Redis field map stored for a short-term memory
(app.py lines 171-180). -/
structure ShortTermRecord where
  id : String
  userId : String
  type : String
  key : String
  value : String
  metadata : String
  created_at : String
  last_accessed : String
deriving DecidableEq, Repr

/-- The Redis state touched by the short-term path: the hash at each key,
its expiry, and the per-user membership sets. -/
structure RedisState where
  hashes : String → Option ShortTermRecord
  expiries : String → Option ℕ
  setsMembers : String → List String

/-- Redis `SADD` of a single member: sets are modelled as duplicate-free
lists, so adding an existing member is a no-op. -/
def saddOne (s : List String) (x : String) : List String :=
  if x ∈ s then s else s ++ [x]

/-- The deterministic composite id
`f"memory:{userId}:{type}:{key}"` (app.py lines 170 and 196). -/
def memoryIdOf {μ : Type} (item : MemoryItem μ) : String :=
  "memory:" ++ item.userId ++ ":" ++ item.type ++ ":" ++ item.key

/-- `store_short_term_memory` (app.py lines 168-192).  `dumps` models
`json.dumps` on the payload, `dumpsDict` on the metadata map, `now` the
`datetime.now().isoformat()` timestamps.  Python truthiness: a zero `ttl`
sets no expiry, empty metadata serializes to the literal `"{}"`. -/
def store_short_term_memory {μ : Type} (dumps : μ → String)
    (dumpsDict : List (String × String) → String) (now : String)
    (st : RedisState) (item : MemoryItem μ) : RedisState × String :=
  let memory_id := memoryIdOf item
  let record : ShortTermRecord :=
    { id := memory_id
      userId := item.userId
      type := item.type
      key := item.key
      value := dumps item.value
      metadata :=
        match item.metadata with
        | some m => if m.isEmpty then "\x7b\x7d" else dumpsDict m
        | none => "\x7b\x7d"
      created_at := now
      last_accessed := now }
  let st1 : RedisState :=
    { st with hashes := fun k => if k = memory_id then some record else st.hashes k }
  let st2 : RedisState :=
    match item.ttl with
    | some t =>
        if t ≠ 0 then
          { st1 with expiries := fun k => if k = memory_id then some t else st1.expiries k }
        else st1
    | none => st1
  let st3 : RedisState :=
    { st2 with setsMembers := fun k =>
        if k = "user:" ++ item.userId ++ ":memories" then
          saddOne (st2.setsMembers k) memory_id
        else st2.setsMembers k }
  (st3, memory_id)

/-- One entry of the ChromaDB `customer_memory` collection as written by
`store_memory_embedding` (app.py lines 226-231). -/
structure ChromaRecord where
  embedding : Vec
  metadata : List (String × String)
  document : String
deriving DecidableEq, Repr

/-- The ChromaDB collection state: entries by id. -/
structure ChromaState where
  entries : String → Option ChromaRecord

/-- `store_memory_embedding` (app.py lines 212-235): generate the
embedding, build the metadata dict
`{"userId": ..., "created_at": ..., **metadata}` (later keys overwrite),
and `upsert` at the given id. -/
def store_memory_embedding (embed : String → Vec) (now : String)
    (cs : ChromaState) (memory_id user_id text : String)
    (metadata : List (String × String)) : ChromaState :=
  let embedding := embed text
  let meta := dictUpdate [("userId", user_id), ("created_at", now)] metadata
  { cs with entries := fun k =>
      if k = memory_id then some ⟨embedding, meta, text⟩ else cs.entries k }

/-- `store_long_term_memory` (app.py lines 194-210): compute the composite
id and hand the embedding write to a background task.  The task is
modelled as running to completion (the read-after-write gap it introduces
is a scheduling concern outside this embedding). -/
def store_long_term_memory {μ : Type} (dumps : μ → String)
    (embed : String → Vec) (now : String) (cs : ChromaState)
    (item : MemoryItem μ) : ChromaState × String :=
  let memory_id := memoryIdOf item
  let memory_text := dumps item.value
  (store_memory_embedding embed now cs memory_id item.userId memory_text
    (item.metadata.getD []), memory_id)

end App

/-- A concrete conversation turn used by witnesses and counterexamples. -/
def sampleTurn : Turn :=
  { messageId := "m1", message := "hello", response := "hi", timestamp := "t1",
    channel := "web", metadata := [] }

/-- C1 (counterexample): with an existing aggregate whose history has
length exactly 20, storing a new turn does NOT trigger summarization —
the aggregate comes back unchanged, with history length 20 rather than
`min(10, 20) = 10` — even though the vector-store write and the
summarization provider would both succeed.  The guard in the source is
`len(memory["history"]) > 20`, which is false at 20. -/
theorem store_memory_length20_not_summarized :
    MemoryManager.store_memory (fun _ => .ok "mem-1") (fun _ => .ok "sum")
      (fun _ => some [("issues", "i")]) "u1" "s1" sampleTurn
      (some { history := List.replicate 20 sampleTurn, context := [] })
      = .ok ("mem-1", some { history := List.replicate 20 sampleTurn, context := [] })
    ∧ (List.replicate 20 sampleTurn).length = 20
    ∧ ¬ ((20 : ℕ) = min 10 20) := by
  refine ⟨rfl, by simp, by decide⟩

/-- C1 (amended): storing a new turn with an existing aggregate leaves the
aggregate unchanged whenever its history has length at most 20 (in
particular at lengths 19 and 20); when the history is strictly longer
than 20 the Summarizer is invoked on the aggregate, and if the provider
call succeeds the resulting history length is `min(10, originalLength)`. -/
theorem store_memory_summarization_trigger
    (vs_store : StoredMemoryData → Except Err String) (vs_id : String)
    (provider : String → Except Err String)
    (parse : String → Option (List (String × String)))
    (user_id session_id : String) (turn : Turn) (m : MemoryAgg)
    (hvs : vs_store (MemoryManager.buildMemoryData user_id session_id turn (some m))
      = .ok vs_id) :
    (m.history.length ≤ 20 →
      MemoryManager.store_memory vs_store provider parse user_id session_id turn (some m)
        = .ok (vs_id, some m))
    ∧ (20 < m.history.length →
      MemoryManager.store_memory vs_store provider parse user_id session_id turn (some m)
        = .ok (vs_id, some (MemoryManager.summarizeContext provider parse m))
      ∧ ∀ t, provider (MemoryManager.conversationText m.history) = .ok t →
        (MemoryManager.summarizeContext provider parse m).history.length
          = min 10 m.history.length) := by
  constructor
  · intro hle
    simp [MemoryManager.store_memory, hvs, Nat.not_lt.mpr hle]
  · intro hgt
    constructor
    · simp [MemoryManager.store_memory, hvs, hgt]
    · intro t ht
      have h5 : ¬ m.history.length < 5 := by omega
      simp only [MemoryManager.summarizeContext, if_neg h5, ht]
      simp only [List.length_drop]
      omega

/-- Witness for C1 (amended): a 21-turn aggregate is summarized down to
10 turns by a successful store. -/
theorem store_memory_summarization_trigger_witness :
    MemoryManager.store_memory (fun _ => .ok "mem-1") (fun _ => .ok "sum")
      (fun _ => none) "u1" "s1" sampleTurn
      (some { history := List.replicate 21 sampleTurn, context := [] })
      = .ok ("mem-1", some (MemoryManager.summarizeContext (fun _ => .ok "sum")
          (fun _ => none) { history := List.replicate 21 sampleTurn, context := [] }))
    ∧ (MemoryManager.summarizeContext (fun _ => .ok "sum") (fun _ => none)
        { history := List.replicate 21 sampleTurn, context := [] }).history.length = 10 := by
  have h := store_memory_summarization_trigger (fun _ => .ok "mem-1") "mem-1"
    (fun _ => .ok "sum") (fun _ => none) "u1" "s1" sampleTurn
    { history := List.replicate 21 sampleTurn, context := [] } rfl
  have h2 := h.2 (by simp)
  refine ⟨h2.1, ?_⟩
  have h3 := h2.2 "sum" rfl
  simpa using h3

/-- C7: summarization is best-effort and atomic on failure.  With fewer
than 5 turns the Summarizer is a no-op returning the aggregate unchanged;
on a hard provider-call failure the original aggregate is returned
unmodified, and such a failure never fails a storing caller (the store
still succeeds, returning the unchanged aggregate). -/
theorem summarize_context_best_effort
    (provider : String → Except Err String)
    (parse : String → Option (List (String × String))) (m : MemoryAgg) :
    (m.history.length < 5 → MemoryManager.summarizeContext provider parse m = m)
    ∧ (∀ e, provider (MemoryManager.conversationText m.history) = .error e →
        MemoryManager.summarizeContext provider parse m = m)
    ∧ (∀ e vs_store vs_id user_id session_id turn,
        provider (MemoryManager.conversationText m.history) = .error e →
        vs_store (MemoryManager.buildMemoryData user_id session_id turn (some m))
          = .ok vs_id →
        MemoryManager.store_memory vs_store provider parse user_id session_id turn (some m)
          = .ok (vs_id, some m)) := by
  have hErr : ∀ e, provider (MemoryManager.conversationText m.history) = .error e →
      MemoryManager.summarizeContext provider parse m = m := by
    intro e he
    by_cases h5 : m.history.length < 5
    · simp [MemoryManager.summarizeContext, h5]
    · simp [MemoryManager.summarizeContext, h5, he]
  refine ⟨?_, hErr, ?_⟩
  · intro h5
    simp [MemoryManager.summarizeContext, h5]
  · intro e vs_store vs_id user_id session_id turn he hvs
    by_cases h20 : 20 < m.history.length
    · simp [MemoryManager.store_memory, hvs, h20, hErr e he]
    · simp [MemoryManager.store_memory, hvs, h20]

/-- Witness for C7: a 3-turn aggregate with a failing provider —
the Summarizer is a no-op both below the threshold and on failure, and
storing still succeeds with the aggregate unchanged. -/
theorem summarize_context_best_effort_witness :
    MemoryManager.summarizeContext (fun _ => .error "provider down") (fun _ => none)
      { history := List.replicate 3 sampleTurn, context := [] }
      = { history := List.replicate 3 sampleTurn, context := [] }
    ∧ MemoryManager.store_memory (fun _ => .ok "mem-2") (fun _ => .error "provider down")
        (fun _ => none) "u1" "s1" sampleTurn
        (some { history := List.replicate 3 sampleTurn, context := [] })
      = .ok ("mem-2", some { history := List.replicate 3 sampleTurn, context := [] }) := by
  have h := summarize_context_best_effort (fun _ => .error "provider down")
    (fun _ => none) { history := List.replicate 3 sampleTurn, context := [] }
  exact ⟨h.1 (by simp), h.2.2 "provider down" _ "mem-2" "u1" "s1" sampleTurn rfl rfl⟩

/-- C3 (counterexample): a backend failure inside the long-term store
adapter is silently converted into an empty result at the manager level
rather than propagating as an error — `search` returns `.ok []` and `get`
returns a successful empty aggregate. -/
theorem manager_swallows_backend_failure :
    MemoryManager.search_memories (.error "backend down") (fun _ => none) = .ok []
    ∧ MemoryManager.get_memory "u1" none (.error "backend down") (fun _ => none)
      = .ok { userId := "u1", sessionId := "", history := [], context := [],
              firstInteraction := none, lastInteraction := none } := by
  exact ⟨rfl, rfl⟩

/-- C3 (amended): backend failures inside the adapter's `search` and
`get-all` operations are caught by the adapter itself and surface as
empty results, so the manager's `get` and `search` succeed with empty
data; only the `store` operation propagates backend failures as
manager-level errors. -/
theorem adapter_failure_semantics (e : Err)
    (parse : String → Option MemoryData) (user_id : String)
    (session_id : Option String) (memory_id : String)
    (provider : String → Except Err String)
    (parse2 : String → Option (List (String × String)))
    (uid sid : String) (turn : Turn) (memory : Option MemoryAgg) :
    VectorStore.search_memories (.error e) parse = []
    ∧ MemoryManager.search_memories (.error e) parse = .ok []
    ∧ VectorStore.get_all_user_memories (.error e) parse = []
    ∧ MemoryManager.get_memory user_id session_id (.error e) parse
      = .ok (MemoryManager.buildSessionMemory user_id session_id [])
    ∧ VectorStore.store_memory (.error e) memory_id = .error e
    ∧ MemoryManager.store_memory (fun _ => .error e) provider parse2 uid sid turn memory
      = .error e := by
  exact ⟨rfl, rfl, rfl, rfl, rfl, rfl⟩

theorem sumSquares_nonneg (a : Vec) : 0 ≤ App.sumSquares a := by
  apply List.sum_nonneg
  intro x hx
  obtain ⟨y, _, rfl⟩ := List.mem_map.mp hx
  exact mul_self_nonneg y

/-- C6: the cosine-similarity computation returns
`dot(a,b) / (|a| * |b|)` when both magnitudes are nonzero, and `0` when
either magnitude is zero; the guarded division never divides by zero
(the function is total). -/
theorem cosineSimilarity_spec (a b : Vec) :
    (App.magnitude a ≠ 0 → App.magnitude b ≠ 0 →
      App.cosineSimilarity a b
        = ((App.dotProduct a b : ℚ) : ℝ) / (App.magnitude a * App.magnitude b))
    ∧ ((App.magnitude a = 0 ∨ App.magnitude b = 0) → App.cosineSimilarity a b = 0) := by
  constructor
  · intro ha hb
    have hpa : 0 < App.magnitude a :=
      lt_of_le_of_ne (Real.sqrt_nonneg _) (Ne.symm ha)
    have hpb : 0 < App.magnitude b :=
      lt_of_le_of_ne (Real.sqrt_nonneg _) (Ne.symm hb)
    simp [App.cosineSimilarity, mul_pos hpa hpb]
  · intro h
    have hz : App.magnitude a * App.magnitude b = 0 := by
      rcases h with h | h <;> simp [h]
    simp [App.cosineSimilarity, hz]

/-- Witness for C6: a zero vector yields similarity `0`, and two nonzero
vectors take the quotient branch. -/
theorem cosineSimilarity_spec_witness :
    App.cosineSimilarity [(1 : ℚ)] [(0 : ℚ)] = 0
    ∧ App.cosineSimilarity [(1 : ℚ)] [(1 : ℚ)]
      = ((App.dotProduct [(1 : ℚ)] [(1 : ℚ)] : ℚ) : ℝ)
        / (App.magnitude [(1 : ℚ)] * App.magnitude [(1 : ℚ)]) := by
  have hzero : App.magnitude [(0 : ℚ)] = 0 := by
    simp [App.magnitude, App.sumSquares]
  have hone : App.magnitude [(1 : ℚ)] ≠ 0 := by
    simp [App.magnitude, App.sumSquares]
  exact ⟨(cosineSimilarity_spec [(1 : ℚ)] [(0 : ℚ)]).2 (Or.inr hzero),
    (cosineSimilarity_spec [(1 : ℚ)] [(1 : ℚ)]).1 hone hone⟩

instance {γ : Type} : IsTotal (γ × ℝ) (fun a b => b.2 ≤ a.2) :=
  ⟨fun a b => le_total b.2 a.2⟩

instance {γ : Type} : IsTrans (γ × ℝ) (fun a b => b.2 ≤ a.2) :=
  ⟨fun _ _ _ hab hbc => le_trans hbc hab⟩

theorem filter_score_orderedInsert {γ : Type} (s : ℝ) (a : γ × ℝ)
    (l : List (γ × ℝ)) :
    ((l.orderedInsert (fun x y => y.2 ≤ x.2) a).filter fun p => decide (p.2 = s))
      = if a.2 = s then a :: (l.filter fun p => decide (p.2 = s))
        else l.filter fun p => decide (p.2 = s) := by
  induction l with
  | nil => by_cases h : a.2 = s <;> simp [List.orderedInsert, h]
  | cons b bs ih =>
      rw [List.orderedInsert]
      by_cases hr : b.2 ≤ a.2
      · rw [if_pos hr]
        by_cases h : a.2 = s <;> simp [List.filter_cons, h]
      · rw [if_neg hr]
        have hlt : a.2 < b.2 := lt_of_not_le hr
        by_cases h : a.2 = s
        · have hb : ¬ (b.2 = s) := by rw [← h]; exact (ne_of_gt hlt)
          simp [List.filter_cons, hb, ih, h]
        · simp [List.filter_cons, ih, h]

theorem filter_score_sortByScoreDesc {γ : Type} (s : ℝ) (l : List (γ × ℝ)) :
    ((App.sortByScoreDesc l).filter fun p => decide (p.2 = s))
      = l.filter fun p => decide (p.2 = s) := by
  unfold App.sortByScoreDesc
  induction l with
  | nil => rfl
  | cons a as ih =>
      rw [List.insertionSort, filter_score_orderedInsert]
      by_cases h : a.2 = s <;> simp [h, ih, List.filter_cons]

/-- C5: the top-relevance selection sorts descending by score, stably —
candidates with equal scores keep their original relative order (for any
score `s`, the equal-`s` candidates of the output form a sublist of the
equal-`s` candidates of the input) — returns at most 3 items, and
returns no item whose score is at most 0.7. -/
theorem selectTop_spec {γ : Type} (l : List (γ × ℝ)) :
    List.Sorted (fun a b : γ × ℝ => b.2 ≤ a.2) (App.selectTop l)
    ∧ (App.selectTop l).length ≤ 3
    ∧ (∀ p ∈ App.selectTop l, (0.7 : ℝ) < p.2)
    ∧ ∀ s : ℝ, ((App.selectTop l).filter fun p => decide (p.2 = s)).Sublist
        (l.filter fun p => decide (p.2 = s)) := by
  have hsorted : List.Sorted (fun a b : γ × ℝ => b.2 ≤ a.2) (App.sortByScoreDesc l) :=
    List.sorted_insertionSort _ l
  have hsub : (App.selectTop l).Sublist (App.sortByScoreDesc l) := by
    unfold App.selectTop
    exact (List.filter_sublist _).trans (List.take_sublist _ _)
  refine ⟨List.Pairwise.sublist hsub hsorted, ?_, ?_, ?_⟩
  · calc (App.selectTop l).length
        ≤ ((App.sortByScoreDesc l).take 3).length := by
          unfold App.selectTop; exact List.length_filter_le _ _
      _ ≤ 3 := by simp [List.length_take]
  · intro p hp
    unfold App.selectTop at hp
    have := List.of_mem_filter hp
    simpa using this
  · intro s
    have h1 : ((App.selectTop l).filter fun p => decide (p.2 = s)).Sublist
        (((App.sortByScoreDesc l).take 3).filter fun p => decide (p.2 = s)) :=
      List.Sublist.filter _ (by unfold App.selectTop; exact List.filter_sublist _)
    have h2 : (((App.sortByScoreDesc l).take 3).filter fun p => decide (p.2 = s)).Sublist
        ((App.sortByScoreDesc l).filter fun p => decide (p.2 = s)) :=
      List.Sublist.filter _ (List.take_sublist _ _)
    have h3 := filter_score_sortByScoreDesc s l
    exact (h1.trans h2).trans (h3 ▸ List.Sublist.refl _)

/-- Witness for C5: on a singleton candidate list with score 1, the
selection contains that candidate and its score exceeds 0.7. -/
theorem selectTop_spec_witness :
    (((0 : ℕ), (1 : ℝ)) ∈ App.selectTop [((0 : ℕ), (1 : ℝ))])
    ∧ (0.7 : ℝ) < (((0 : ℕ), (1 : ℝ)) : ℕ × ℝ).2 := by
  have hmem : (((0 : ℕ), (1 : ℝ))) ∈ App.selectTop [((0 : ℕ), (1 : ℝ))] := by
    unfold App.selectTop App.sortByScoreDesc
    simp [List.insertionSort, List.filter_cons]
    norm_num
  exact ⟨hmem, (selectTop_spec [((0 : ℕ), (1 : ℝ))]).2.2.1 _ hmem⟩

/-- C2 (counterexample): a failure while fetching the user's memories
aborts the whole optimization — the call errors out, so session-context
assembly does not happen even though the session fetch would have
succeeded. -/
theorem optimize_context_memory_failure_blocks :
    App.optimize_context (μ := Unit) [1, 2, 3] "q" (some "u") (some "s")
      (.error "backend down") (fun _ => "") (fun _ => [])
      (.ok [("k", CtxVal.str "v")])
      = .error "backend down" := rfl

/-- C2 (amended): step 2 is fault-isolated — a session-context fetch
failure is equivalent to an empty session context and never blocks the
rest — and a call with no user and no session returns the truncated
history with no memories and an empty session context without raising;
but a memory-fetch failure with a truthy user aborts the whole call with
an error. -/
theorem optimize_context_fault_isolation {α μ : Type} (hist : List α)
    (q : String) (userId sessionId : Option String)
    (memResult : Except Err (List (App.MemRec μ)))
    (serialize : μ → String) (embed : String → Vec)
    (ctxResult : Except Err Ctx) :
    (∀ e, App.optimize_context hist q userId sessionId memResult serialize embed
        (.error e)
      = App.optimize_context hist q userId sessionId memResult serialize embed
        (.ok []))
    ∧ (App.optimize_context hist q none none memResult serialize embed ctxResult
      = .ok { conversation_history := App.truncateHistory hist,
              relevant_memories := [], session_context := [] })
    ∧ (∀ e, truthyOpt userId = true →
        App.optimize_context hist q userId sessionId (.error e) serialize embed
          ctxResult = .error e) := by
  refine ⟨?_, rfl, ?_⟩
  · intro e
    by_cases hu : truthyOpt userId
    · cases memResult with
      | error e' => simp [App.optimize_context, hu]
      | ok mems => by_cases hs : truthyOpt sessionId <;>
          simp [App.optimize_context, hu, hs]
    · by_cases hs : truthyOpt sessionId <;>
        simp [App.optimize_context, hu, hs]
  · intro e hu
    simp [App.optimize_context, hu]

/-- Witness for C2 (amended): with a present user and session, a failed
session fetch gives the same result as an empty one, and a failed memory
fetch aborts with that error. -/
theorem optimize_context_fault_isolation_witness :
    App.optimize_context (α := ℕ) (μ := Unit) [1] "q" (some "u") (some "s")
      (.ok []) (fun _ => "") (fun _ => []) (.error "ctx down")
      = App.optimize_context (α := ℕ) (μ := Unit) [1] "q" (some "u") (some "s")
        (.ok []) (fun _ => "") (fun _ => []) (.ok [])
    ∧ App.optimize_context (α := ℕ) (μ := Unit) [1] "q" (some "u") (some "s")
        (.error "mem down") (fun _ => "") (fun _ => []) (.ok [])
      = .error "mem down" := by
  refine ⟨(optimize_context_fault_isolation [1] "q" (some "u") (some "s")
    (.ok []) (fun _ => "") (fun _ => []) (.ok [])).1 "ctx down", ?_⟩
  exact (optimize_context_fault_isolation [1] "q" (some "u") (some "s")
    (.ok []) (fun _ => "") (fun _ => []) (.ok [])).2.2 "mem down" rfl

/-- C4: whenever `optimize_context` succeeds, its conversation history is
the input history when that has at most 10 turns, and otherwise the first
2 turns concatenated with the last 8 turns — 10 turns total, in original
relative order. -/
theorem optimize_context_truncation {α μ : Type} (hist : List α) (q : String)
    (userId sessionId : Option String)
    (memResult : Except Err (List (App.MemRec μ)))
    (serialize : μ → String) (embed : String → Vec) (ctxResult : Except Err Ctx)
    (r : App.OptimizedContext α μ)
    (h : App.optimize_context hist q userId sessionId memResult serialize embed
      ctxResult = .ok r) :
    (10 < hist.length →
      r.conversation_history = hist.take 2 ++ hist.drop (hist.length - 8)
      ∧ r.conversation_history.length = 10)
    ∧ (hist.length ≤ 10 → r.conversation_history = hist) := by
  have hr : r.conversation_history = App.truncateHistory hist := by
    unfold App.optimize_context at h
    split at h
    · exact absurd h (by simp)
    · rw [← Except.ok.inj h]
  constructor
  · intro hlen
    have ht : App.truncateHistory hist = hist.take 2 ++ hist.drop (hist.length - 8) := by
      unfold App.truncateHistory
      rw [if_pos hlen]
    refine ⟨hr.trans ht, ?_⟩
    rw [hr, ht]
    simp only [List.length_append, List.length_take, List.length_drop]
    omega
  · intro hle
    have ht : App.truncateHistory hist = hist := by
      unfold App.truncateHistory
      rw [if_neg (not_lt.mpr hle)]
    exact hr.trans ht

/-- Witness for C4: the 12-turn history `[T0..T11]` truncates to
`[T0, T1, T4, …, T11]`, and a 4-turn history is unchanged. -/
theorem optimize_context_truncation_witness :
    App.truncateHistory ([0, 1, 2, 3, 4, 5, 6, 7, 8, 9, 10, 11] : List ℕ)
      = [0, 1, 4, 5, 6, 7, 8, 9, 10, 11]
    ∧ App.truncateHistory ([0, 1, 2, 3] : List ℕ) = [0, 1, 2, 3] := by
  have h12 := (optimize_context_truncation (μ := Unit)
    [0, 1, 2, 3, 4, 5, 6, 7, 8, 9, 10, 11] "" none none (.ok [])
    (fun _ => "") (fun _ => []) (.ok []) _ rfl).1 (by simp)
  have h4 := (optimize_context_truncation (μ := Unit) [0, 1, 2, 3] "" none none
    (.ok []) (fun _ => "") (fun _ => []) (.ok []) _ rfl).2 (by simp)
  exact ⟨h12.1.trans (by decide), h4⟩

theorem chunksOf_length_sum (n : ℕ) (hn : 0 < n) (l : List String) :
    ((EmbeddingService.chunksOf n l).map List.length).sum = l.length := by
  rw [EmbeddingService.chunksOf]
  split
  · rename_i h
    rcases h with h | h
    · subst h; simp
    · exact absurd h hn.ne'
  · rename_i h
    push_neg at h
    obtain ⟨hl, -⟩ := h
    have ih := chunksOf_length_sum n hn (l.drop n)
    simp only [List.map_cons, List.sum_cons, ih, List.length_take, List.length_drop]
    have : 0 < l.length := List.length_pos.mpr hl
    omega
termination_by l.length
decreasing_by
  simp only [List.length_drop]
  have : 0 < l.length := List.length_pos.mpr hl
  omega

theorem processBatch_length (call : List String → Except Err (List EmbItem))
    (batch : List String)
    (hlen : ∀ d, call batch = .ok d → d.length = batch.length) :
    (EmbeddingService.processBatch call batch).length = batch.length := by
  unfold EmbeddingService.processBatch
  cases hc : call batch with
  | error e => simp
  | ok data => simp [List.length_insertionSort, hlen data hc]

/-- C10: the batched embedding operation returns exactly one vector per
input text: the output length always equals the input length (assuming
the provider returns one item per input on success), a failed batch
contributes one all-zero 1536-dimension vector per element, and a
successful batch whose items arrive in index order contributes the
provider's embeddings in that input order. -/
theorem get_embeddings_spec (call : List String → Except Err (List EmbItem))
    (texts : List String)
    (hlen : ∀ b d, call b = .ok d → d.length = b.length) :
    (EmbeddingService.get_embeddings call texts).length = texts.length
    ∧ (∀ b e, call b = .error e →
        EmbeddingService.processBatch call b = List.replicate b.length zeroVec)
    ∧ (∀ b d, call b = .ok d →
        List.Pairwise (fun x y : EmbItem => x.index < y.index) d →
        EmbeddingService.processBatch call b = d.map EmbItem.embedding) := by
  refine ⟨?_, ?_, ?_⟩
  · unfold EmbeddingService.get_embeddings
    by_cases h : texts = []
    · simp [h]
    · rw [if_neg h, List.length_flatMap]
      have hcongr : List.map (List.length ∘ EmbeddingService.processBatch call)
          (EmbeddingService.chunksOf 100 texts)
          = List.map List.length (EmbeddingService.chunksOf 100 texts) := by
        apply List.map_congr_left
        intro c _
        exact processBatch_length call c (fun d hd => hlen c d hd)
      rw [hcongr, chunksOf_length_sum 100 (by norm_num) texts]
  · intro b e he
    unfold EmbeddingService.processBatch
    rw [he]
  · intro b d hd hsorted
    have hs : List.insertionSort (fun a b : EmbItem => a.index ≤ b.index) d = d :=
      List.Sorted.insertionSort_eq (hsorted.imp fun h => le_of_lt h)
    simp [EmbeddingService.processBatch, hd, hs]

/-- Witness for C10: a provider that fails on every batch still yields one
(zero) vector per input. -/
theorem get_embeddings_spec_witness :
    (EmbeddingService.get_embeddings (fun _ => .error "down") ["a", "b"]).length = 2
    ∧ EmbeddingService.processBatch (fun _ => .error "down") ["a", "b"]
      = List.replicate 2 zeroVec := by
  have h := get_embeddings_spec (fun _ => .error "down") ["a", "b"]
    (fun b d hd => Except.noConfusion hd)
  exact ⟨h.1, by simpa using h.2.1 ["a", "b"] "down" rfl⟩

theorem store_short_hashes_ne {μ : Type} (dumps : μ → String)
    (dumpsDict : List (String × String) → String) (now : String)
    (st : App.RedisState) (i : App.MemoryItem μ) (k : String)
    (hk : k ≠ App.memoryIdOf i) :
    ((App.store_short_term_memory dumps dumpsDict now st i).1).hashes k
      = st.hashes k := by
  unfold App.store_short_term_memory
  cases httl : i.ttl with
  | none => simp [hk]
  | some t => by_cases h0 : t ≠ 0 <;> simp [hk, h0]

theorem store_short_hashes_self {μ : Type} (dumps : μ → String)
    (dumpsDict : List (String × String) → String) (now : String)
    (st st' : App.RedisState) (i : App.MemoryItem μ) :
    ((App.store_short_term_memory dumps dumpsDict now st i).1).hashes
        (App.memoryIdOf i)
      = ((App.store_short_term_memory dumps dumpsDict now st' i).1).hashes
        (App.memoryIdOf i) := by
  unfold App.store_short_term_memory
  cases httl : i.ttl with
  | none => simp
  | some t => by_cases h0 : t ≠ 0 <;> simp [h0]

theorem store_short_sets_ne {μ : Type} (dumps : μ → String)
    (dumpsDict : List (String × String) → String) (now : String)
    (st : App.RedisState) (i : App.MemoryItem μ) (k : String)
    (hk : k ≠ "user:" ++ i.userId ++ ":memories") :
    ((App.store_short_term_memory dumps dumpsDict now st i).1).setsMembers k
      = st.setsMembers k := by
  unfold App.store_short_term_memory
  cases httl : i.ttl with
  | none => simp [hk]
  | some t => by_cases h0 : t ≠ 0 <;> simp [hk, h0]

theorem store_short_sets_self {μ : Type} (dumps : μ → String)
    (dumpsDict : List (String × String) → String) (now : String)
    (st : App.RedisState) (i : App.MemoryItem μ) :
    ((App.store_short_term_memory dumps dumpsDict now st i).1).setsMembers
        ("user:" ++ i.userId ++ ":memories")
      = App.saddOne (st.setsMembers ("user:" ++ i.userId ++ ":memories"))
          (App.memoryIdOf i) := by
  unfold App.store_short_term_memory
  cases httl : i.ttl with
  | none => simp
  | some t => by_cases h0 : t ≠ 0 <;> simp [h0]

theorem saddOne_idem (s : List String) (x : String) :
    App.saddOne (App.saddOne s x) x = App.saddOne s x := by
  have hx : x ∈ App.saddOne s x := by
    by_cases h : x ∈ s <;> simp [App.saddOne, h]
  show (if x ∈ App.saddOne s x then App.saddOne s x
    else App.saddOne s x ++ [x]) = App.saddOne s x
  rw [if_pos hx]

theorem store_long_entries_ne {μ : Type} (dumps : μ → String)
    (embed : String → Vec) (now : String) (cs : App.ChromaState)
    (i : App.MemoryItem μ) (k : String) (hk : k ≠ App.memoryIdOf i) :
    ((App.store_long_term_memory dumps embed now cs i).1).entries k
      = cs.entries k := by
  simp [App.store_long_term_memory, App.store_memory_embedding, hk]

theorem store_long_entries_self {μ : Type} (dumps : μ → String)
    (embed : String → Vec) (now : String) (cs cs' : App.ChromaState)
    (i : App.MemoryItem μ) :
    ((App.store_long_term_memory dumps embed now cs i).1).entries
        (App.memoryIdOf i)
      = ((App.store_long_term_memory dumps embed now cs' i).1).entries
        (App.memoryIdOf i) := by
  simp [App.store_long_term_memory, App.store_memory_embedding]

/-- C9: a memory's storage identity is the deterministic composite id
`"memory:{userId}:{type}:{key}"`, and storing a second item with the same
`(userId, type, key)` replaces the existing record rather than creating a
new one — after storing `i1` then `i2`, the Redis hash table and per-user
index set (short-term path) and the ChromaDB entry table (long-term path)
are exactly those obtained by storing `i2` alone. -/
theorem memory_identity_upsert {μ : Type} (dumps : μ → String)
    (dumpsDict : List (String × String) → String) (now now2 : String)
    (embed : String → Vec) (st : App.RedisState) (cs : App.ChromaState)
    (i1 i2 : App.MemoryItem μ) (hu : i2.userId = i1.userId)
    (ht : i2.type = i1.type) (hk : i2.key = i1.key) :
    (App.store_short_term_memory dumps dumpsDict now st i1).2
      = "memory:" ++ i1.userId ++ ":" ++ i1.type ++ ":" ++ i1.key
    ∧ (App.store_long_term_memory dumps embed now cs i1).2
      = "memory:" ++ i1.userId ++ ":" ++ i1.type ++ ":" ++ i1.key
    ∧ (∀ k, ((App.store_short_term_memory dumps dumpsDict now2
          (App.store_short_term_memory dumps dumpsDict now st i1).1 i2).1).hashes k
        = ((App.store_short_term_memory dumps dumpsDict now2 st i2).1).hashes k)
    ∧ (∀ k, ((App.store_short_term_memory dumps dumpsDict now2
          (App.store_short_term_memory dumps dumpsDict now st i1).1 i2).1).setsMembers k
        = ((App.store_short_term_memory dumps dumpsDict now2 st i2).1).setsMembers k)
    ∧ (∀ k, ((App.store_long_term_memory dumps embed now2
          (App.store_long_term_memory dumps embed now cs i1).1 i2).1).entries k
        = ((App.store_long_term_memory dumps embed now2 cs i2).1).entries k) := by
  have hid : App.memoryIdOf i2 = App.memoryIdOf i1 := by
    simp [App.memoryIdOf, hu, ht, hk]
  have hkey : "user:" ++ i2.userId ++ ":memories"
      = "user:" ++ i1.userId ++ ":memories" := by rw [hu]
  refine ⟨rfl, rfl, ?_, ?_, ?_⟩
  · intro k
    by_cases hmid : k = App.memoryIdOf i2
    · subst hmid
      exact store_short_hashes_self dumps dumpsDict now2 _ st i2
    · rw [store_short_hashes_ne dumps dumpsDict now2 _ i2 k hmid,
        store_short_hashes_ne dumps dumpsDict now2 st i2 k hmid]
      exact store_short_hashes_ne dumps dumpsDict now st i1 k (hid ▸ hmid)
  · intro k
    by_cases hukey : k = "user:" ++ i2.userId ++ ":memories"
    · subst hukey
      rw [store_short_sets_self dumps dumpsDict now2 _ i2,
        store_short_sets_self dumps dumpsDict now2 st i2]
      rw [hkey, store_short_sets_self dumps dumpsDict now st i1, ← hkey,
        hid, saddOne_idem]
    · rw [store_short_sets_ne dumps dumpsDict now2 _ i2 k hukey,
        store_short_sets_ne dumps dumpsDict now2 st i2 k hukey]
      exact store_short_sets_ne dumps dumpsDict now st i1 k (hkey ▸ hukey)
  · intro k
    by_cases hmid : k = App.memoryIdOf i2
    · subst hmid
      exact store_long_entries_self dumps embed now2 _ cs i2
    · rw [store_long_entries_ne dumps embed now2 _ i2 k hmid,
        store_long_entries_ne dumps embed now2 cs i2 k hmid]
      exact store_long_entries_ne dumps embed now cs i1 k (hid ▸ hmid)

/-- Witness for C9: two concrete items with the same `(userId, type, key)`
share the composite id, and the second short-term store leaves the hash
table exactly as a lone store of the second item would. -/
theorem memory_identity_upsert_witness :
    (App.store_short_term_memory (fun v : String => v) (fun _ => "") "t1"
      ⟨fun _ => none, fun _ => none, fun _ => []⟩
      ⟨"u1", "short_term", "k1", "v1", none, none⟩).2 = "memory:u1:short_term:k1"
    ∧ ((App.store_short_term_memory (fun v : String => v) (fun _ => "") "t2"
        (App.store_short_term_memory (fun v : String => v) (fun _ => "") "t1"
          ⟨fun _ => none, fun _ => none, fun _ => []⟩
          ⟨"u1", "short_term", "k1", "v1", none, none⟩).1
        ⟨"u1", "short_term", "k1", "v2", none, none⟩).1).hashes
        "memory:u1:short_term:k1"
      = ((App.store_short_term_memory (fun v : String => v) (fun _ => "") "t2"
          ⟨fun _ => none, fun _ => none, fun _ => []⟩
          ⟨"u1", "short_term", "k1", "v2", none, none⟩).1).hashes
          "memory:u1:short_term:k1" := by
  have h := memory_identity_upsert (fun v : String => v) (fun _ => "") "t1" "t2"
    (fun _ => []) ⟨fun _ => none, fun _ => none, fun _ => []⟩ ⟨fun _ => none⟩
    ⟨"u1", "short_term", "k1", "v1", none, none⟩
    ⟨"u1", "short_term", "k1", "v2", none, none⟩ rfl rfl rfl
  exact ⟨h.1.trans (by decide), h.2.2.1 "memory:u1:short_term:k1"⟩

instance : IsTotal MemoryData
    (fun a b => a.timestamp.getD "" ≤ b.timestamp.getD "") :=
  ⟨fun x y => le_total (x.timestamp.getD "") (y.timestamp.getD "")⟩

instance : IsTrans MemoryData
    (fun a b => a.timestamp.getD "" ≤ b.timestamp.getD "") :=
  ⟨fun _ _ _ => le_trans⟩

/-- Accumulator step computing the minimum of a list of timestamps, the
specification-side reading of the `first_interaction` loop. -/
def minStep (acc : Option String) (t : String) : Option String :=
  match acc with
  | none => some t
  | some f => some (min f t)

/-- Accumulator step computing the maximum of a list of timestamps, the
specification-side reading of the `last_interaction` loop. -/
def maxStep (acc : Option String) (t : String) : Option String :=
  match acc with
  | none => some t
  | some f => some (max f t)

/-- The minimum timestamp of a list, `none` on the empty list. -/
def specMinTs (l : List String) : Option String := l.foldl minStep none

/-- The maximum timestamp of a list, `none` on the empty list. -/
def specMaxTs (l : List String) : Option String := l.foldl maxStep none

instance : RightCommutative minStep := ⟨by
  intro b a1 a2
  cases b <;> simp [minStep, min_comm, min_left_comm]⟩

instance : RightCommutative maxStep := ⟨by
  intro b a1 a2
  cases b <;> simp [maxStep, max_comm, max_left_comm]⟩

theorem specMinTs_perm {l1 l2 : List String} (hp : l1.Perm l2) :
    specMinTs l1 = specMinTs l2 :=
  hp.foldl_eq none

theorem specMaxTs_perm {l1 l2 : List String} (hp : l1.Perm l2) :
    specMaxTs l1 = specMaxTs l2 :=
  hp.foldl_eq none

theorem foldl_updFirst_aux (l : List String) (f : String) (hf : f ≠ "")
    (hl : ∀ t ∈ l, t ≠ "") :
    l.foldl MemoryManager.updFirst (some f) = l.foldl minStep (some f) := by
  induction l generalizing f with
  | nil => rfl
  | cons t l' ih =>
      have hft : MemoryManager.updFirst (some f) t = some (min f t) := by
        show (if f = "" ∨ t < f then some t else some f) = some (min f t)
        by_cases hlt : t < f
        · rw [if_pos (Or.inr hlt), min_eq_right hlt.le]
        · rw [if_neg (by tauto), min_eq_left (not_lt.mp hlt)]
      have hmin : min f t ≠ "" := by
        rcases min_choice f t with hc | hc <;> rw [hc]
        · exact hf
        · exact hl t (List.mem_cons_self t l')
      rw [List.foldl_cons, List.foldl_cons, hft]
      show l'.foldl MemoryManager.updFirst (some (min f t)) = l'.foldl minStep (some (min f t))
      exact ih (min f t) hmin (fun t' ht' => hl t' (List.mem_cons_of_mem t ht'))

theorem foldl_updFirst_eq (l : List String) (hl : ∀ t ∈ l, t ≠ "") :
    l.foldl MemoryManager.updFirst none = specMinTs l := by
  cases l with
  | nil => rfl
  | cons t l' =>
      rw [List.foldl_cons]
      show l'.foldl MemoryManager.updFirst (some t) = l'.foldl minStep (some t)
      exact foldl_updFirst_aux l' t (hl t (List.mem_cons_self t l'))
        (fun t' ht' => hl t' (List.mem_cons_of_mem t ht'))

theorem foldl_updLast_aux (l : List String) (f : String) (hf : f ≠ "")
    (hl : ∀ t ∈ l, t ≠ "") :
    l.foldl MemoryManager.updLast (some f) = l.foldl maxStep (some f) := by
  induction l generalizing f with
  | nil => rfl
  | cons t l' ih =>
      have hft : MemoryManager.updLast (some f) t = some (max f t) := by
        show (if f = "" ∨ f < t then some t else some f) = some (max f t)
        by_cases hlt : f < t
        · rw [if_pos (Or.inr hlt), max_eq_right hlt.le]
        · rw [if_neg (by tauto), max_eq_left (not_lt.mp hlt)]
      have hmax : max f t ≠ "" := by
        rcases max_choice f t with hc | hc <;> rw [hc]
        · exact hf
        · exact hl t (List.mem_cons_self t l')
      rw [List.foldl_cons, List.foldl_cons, hft]
      show l'.foldl MemoryManager.updLast (some (max f t)) = l'.foldl maxStep (some (max f t))
      exact ih (max f t) hmax (fun t' ht' => hl t' (List.mem_cons_of_mem t ht'))

theorem foldl_updLast_eq (l : List String) (hl : ∀ t ∈ l, t ≠ "") :
    l.foldl MemoryManager.updLast none = specMaxTs l := by
  cases l with
  | nil => rfl
  | cons t l' =>
      rw [List.foldl_cons]
      show l'.foldl MemoryManager.updLast (some t) = l'.foldl maxStep (some t)
      exact foldl_updLast_aux l' t (hl t (List.mem_cons_self t l'))
        (fun t' ht' => hl t' (List.mem_cons_of_mem t ht'))

theorem truthyTimestamps_ne_empty (l : List MemoryData) :
    ∀ t ∈ MemoryManager.truthyTimestamps l, t ≠ "" := by
  intro t ht
  obtain ⟨m, _, he⟩ := List.mem_filterMap.mp ht
  revert he
  rcases m.timestamp with _ | t'
  · simp
  · by_cases h0 : t' = "" <;> simp [h0]
    intro h
    rw [← h]
    exact h0

theorem turnOfMemory_timestamp {m : MemoryData} {t : Turn}
    (h : MemoryManager.turnOfMemory m = some t) :
    t.timestamp = m.timestamp.getD "" := by
  unfold MemoryManager.turnOfMemory at h
  split at h
  · rw [← Option.some.inj h]
  · exact absurd h (by simp)

theorem lookup_foldl_ctx (l : List MemoryData) (acc : Ctx) (k : String) :
    (l.foldl (fun acc m => match m.context with
        | some c => dictUpdate acc c
        | none => acc) acc).lookup k
      = (l.reverse.findSome? fun m => (m.context.getD []).reverse.lookup k).or
          (acc.lookup k) := by
  induction l generalizing acc with
  | nil => simp
  | cons m l' ih =>
      have hstep : ((match m.context with
          | some c => dictUpdate acc c
          | none => acc : Ctx)).lookup k
          = (((m.context.getD [] : Ctx)).reverse.lookup k).or (acc.lookup k) := by
        rcases m.context with _ | c
        · simp
        · simp [lookup_dictUpdate]
      rw [List.foldl_cons, ih, hstep, List.reverse_cons, List.findSome?_append]
      have hone : (List.findSome? (fun m => (m.context.getD [] : Ctx).reverse.lookup k) [m])
          = (m.context.getD [] : Ctx).reverse.lookup k := by
        cases hres : ((m.context.getD [] : Ctx)).reverse.lookup k <;>
          simp [List.findSome?, hres]
      rw [hone, Option.or_assoc]

theorem buildSessionMemory_history_sorted (u : String) (sid : Option String)
    (mems : List MemoryData) :
    List.Pairwise (fun t t' : Turn => t.timestamp ≤ t'.timestamp)
      (MemoryManager.buildSessionMemory u sid mems).history := by
  have hs : List.Sorted (fun a b : MemoryData => a.timestamp.getD "" ≤ b.timestamp.getD "")
      (MemoryManager.sortByTimestamp (MemoryManager.sessionFilter sid mems)) :=
    List.sorted_insertionSort _ _
  show List.Pairwise _
    ((MemoryManager.sortByTimestamp (MemoryManager.sessionFilter sid mems)).filterMap
      MemoryManager.turnOfMemory)
  rw [List.pairwise_filterMap]
  refine hs.imp ?_
  intro a b hab t htm t' htm'
  rw [turnOfMemory_timestamp (Option.mem_def.mp htm),
    turnOfMemory_timestamp (Option.mem_def.mp htm')]
  exact hab

theorem buildSessionMemory_context_lookup (u : String) (sid : Option String)
    (mems : List MemoryData) (k : String) :
    (MemoryManager.buildSessionMemory u sid mems).context.lookup k
      = (MemoryManager.sortByTimestamp
          (MemoryManager.sessionFilter sid mems)).reverse.findSome?
          (fun m => (m.context.getD [] : Ctx).reverse.lookup k) := by
  show (MemoryManager.foldContexts
    (MemoryManager.sortByTimestamp (MemoryManager.sessionFilter sid mems))).lookup k = _
  unfold MemoryManager.foldContexts
  rw [lookup_foldl_ctx]
  simp

theorem buildSessionMemory_first (u : String) (sid : Option String)
    (mems : List MemoryData) :
    (MemoryManager.buildSessionMemory u sid mems).firstInteraction
      = specMinTs (MemoryManager.truthyTimestamps
          (MemoryManager.sessionFilter sid mems)) := by
  show (MemoryManager.truthyTimestamps
    (MemoryManager.sortByTimestamp (MemoryManager.sessionFilter sid mems))).foldl
      MemoryManager.updFirst none = _
  rw [foldl_updFirst_eq _ (truthyTimestamps_ne_empty _)]
  exact specMinTs_perm
    ((List.perm_insertionSort _ _).filterMap _)

theorem buildSessionMemory_last (u : String) (sid : Option String)
    (mems : List MemoryData) :
    (MemoryManager.buildSessionMemory u sid mems).lastInteraction
      = specMaxTs (MemoryManager.truthyTimestamps
          (MemoryManager.sessionFilter sid mems)) := by
  show (MemoryManager.truthyTimestamps
    (MemoryManager.sortByTimestamp (MemoryManager.sessionFilter sid mems))).foldl
      MemoryManager.updLast none = _
  rw [foldl_updLast_eq _ (truthyTimestamps_ne_empty _)]
  exact specMaxTs_perm
    ((List.perm_insertionSort _ _).filterMap _)

/-- C8: `get_memory` returns a SessionMemory whose history is sorted
ascending by timestamp, whose context map resolves every key to the value
contributed by the last (in timestamp-sorted order) retrieved item whose
context binds that key — later keys overwrite earlier ones — and whose
first and last interactions are the minimum and maximum (truthy)
timestamps over the retrieved items. -/
theorem get_memory_spec (user_id : String) (session_id : Option String)
    (backendResult : Except Err (List ChromaMeta))
    (parse : String → Option MemoryData) (r : SessionMemory)
    (h : MemoryManager.get_memory user_id session_id backendResult parse = .ok r) :
    List.Pairwise (fun t t' : Turn => t.timestamp ≤ t'.timestamp) r.history
    ∧ (∀ k, r.context.lookup k
        = (MemoryManager.sortByTimestamp (MemoryManager.sessionFilter session_id
            (VectorStore.get_all_user_memories backendResult parse))).reverse.findSome?
            (fun m => (m.context.getD [] : Ctx).reverse.lookup k))
    ∧ r.firstInteraction = specMinTs (MemoryManager.truthyTimestamps
        (MemoryManager.sessionFilter session_id
          (VectorStore.get_all_user_memories backendResult parse)))
    ∧ r.lastInteraction = specMaxTs (MemoryManager.truthyTimestamps
        (MemoryManager.sessionFilter session_id
          (VectorStore.get_all_user_memories backendResult parse))) := by
  have hr : r = MemoryManager.buildSessionMemory user_id session_id
      (VectorStore.get_all_user_memories backendResult parse) :=
    (Except.ok.inj h).symm
  subst hr
  exact ⟨buildSessionMemory_history_sorted _ _ _,
    fun k => buildSessionMemory_context_lookup _ _ _ k,
    buildSessionMemory_first _ _ _, buildSessionMemory_last _ _ _⟩

/-- Concrete stored memory used by the `get_memory` witness. -/
def mdW1 : MemoryData :=
  { userId := some "u", sessionId := none, message := some "m1",
    response := some "r1", messageId := none, timestamp := some "t1",
    channel := none, metadata := none,
    context := some [("k", CtxVal.str "v1")], similarity_score := none }

/-- Concrete `json.loads` model used by the `get_memory` witness. -/
def parseW : String → Option MemoryData := fun s =>
  if s = "a" then some mdW1 else none

/-- Witness for C8: with one stored item, the derived first and last
interactions are its timestamp and the context key `k` resolves to its
binding. -/
theorem get_memory_spec_witness :
    (MemoryManager.buildSessionMemory "u" none
      (VectorStore.get_all_user_memories (.ok [⟨some "a"⟩])
        parseW)).firstInteraction = some "t1"
    ∧ (MemoryManager.buildSessionMemory "u" none
        (VectorStore.get_all_user_memories (.ok [⟨some "a"⟩])
          parseW)).lastInteraction = some "t1"
    ∧ (MemoryManager.buildSessionMemory "u" none
        (VectorStore.get_all_user_memories (.ok [⟨some "a"⟩])
          parseW)).context.lookup "k" = some (CtxVal.str "v1") := by
  have h := get_memory_spec "u" none (.ok [⟨some "a"⟩]) parseW _ rfl
  exact ⟨h.2.2.1.trans (by decide), h.2.2.2.trans (by decide),
    (h.2.1 "k").trans (by decide)⟩
